import Mathlib

/-!
Verification of the gzip middleware static-asset server (`main.go`).

The development shallowly embeds the two middleware layers of the program:

* `statusWriter` — the logging layer's response-writer wrapper, recording
  the first status code set on it;
* `gzipResponseWriter` — the compression layer's buffering wrapper, with
  its classification function `shouldCompress`;
* `gzipMiddleware` / `loggingMiddleware` — the per-request control flow of
  the two middleware functions, run against a trace of handler actions.

The base handler (an `http.FileServer`, treated as a black box) is modelled
as an arbitrary list of `ReqAction`s: header mutations, status sets and body
writes, exactly the operations the `http.ResponseWriter` interface offers.
The underlying net/http response object is modelled by `RawWriter`:
a header map, a once-only status commit that snapshots the headers being
sent, and an append-only body.  The gzip encoder from `compress/gzip` is
not part of this repository; the middleware is therefore parameterised by
the byte-level compression function `comp` it feeds the buffered body to,
and the pool / encoder lifecycle of the flush step is recorded as a trace
of `PoolEvent`s.  Bytes are modelled as `Nat`.
-/

/-- Bytes of a body, as written by Go `[]byte` slices. -/
abbrev Bytes := List Nat

/-- Go `http.Header`: an association list of header keys to values.
All keys used by the program are already in canonical MIME form. -/
abbrev Header := List (String × String)

/-- `Header.Get`: first value stored under `k`, `""` when absent. -/
def hGet (h : Header) (k : String) : String :=
  ((h.find? (fun p => p.1 == k)).map Prod.snd).getD ""

/-- `Header.Del`: remove every entry under `k`. -/
def hDel (h : Header) (k : String) : Header :=
  h.filter (fun p => !(p.1 == k))

/-- `Header.Set`: replace the entries under `k` by the single value `v`. -/
def hSet (h : Header) (k v : String) : Header :=
  (k, v) :: hDel h k

/-- Whether the header map has any entry under `k`. -/
def hHas (h : Header) (k : String) : Bool :=
  h.any (fun p => p.1 == k)

/-- `strings.HasPrefix` on rune lists. -/
def lstartsWith : List Char → List Char → Bool
  | _, [] => true
  | [], _ :: _ => false
  | c :: s, p :: ps => c == p && lstartsWith s ps

/-- `strings.Contains` on rune lists (second argument is the haystack). -/
def lcontainsSub (sub : List Char) : List Char → Bool
  | [] => lstartsWith [] sub
  | c :: s => lstartsWith (c :: s) sub || lcontainsSub sub s

/-- Go `strings.Contains s sub`. -/
def goContains (s sub : String) : Bool :=
  lcontainsSub sub.toList s.toList

/-- `compressibleTypes` from `main.go`: MIME type prefixes that benefit
from compression. -/
def compressibleTypes : List String :=
  ["text/", "application/json", "application/javascript",
   "application/xml", "application/xhtml+xml", "image/svg+xml"]

/-- `shouldCompress` from `main.go`: lower-case the `Content-Type` value
and match it against the compressible prefixes.  (Case folding is modelled
on characters via `Char.toLower`, the ASCII folding that all the listed
MIME types use.) -/
def shouldCompress (contentType : String) : Bool :=
  let ct := contentType.toList.map Char.toLower
  compressibleTypes.any (fun p => lstartsWith ct p.toList)

/-- Go `append` on a possibly-nil `[]byte`: appending nothing to a nil
slice keeps it nil — exactly the distinction `grw.body != nil` tests. -/
def goAppend : Option Bytes → Bytes → Option Bytes
  | none, [] => none
  | none, b => some b
  | some a, b => some (a ++ b)

/-- One call the base handler makes on the response writer handed to it. -/
inductive ReqAction where
  | setHeader (k v : String)
  | delHeader (k : String)
  | writeHeader (code : Nat)
  | write (b : Bytes)
deriving DecidableEq, Repr

/-- Concatenation of all body bytes the handler writes. -/
def writtenBytes : List ReqAction → Bytes
  | [] => []
  | .write b :: as => b ++ writtenBytes as
  | _ :: as => writtenBytes as

/-- Actions that only mutate headers (no status commit, no body). -/
def isHdrAction : ReqAction → Bool
  | .setHeader _ _ => true
  | .delHeader _ => true
  | _ => false

/-- A trace that never commits a status nor writes a body byte. -/
def isHdrOnly (as : List ReqAction) : Bool := as.all isHdrAction

/-- Actions that commit the response status (explicitly or implicitly). -/
def isCommitAct : ReqAction → Bool
  | .writeHeader _ => true
  | .write _ => true
  | _ => false

/-- Whether the trace contains a status-committing action. -/
def hasCommit (as : List ReqAction) : Bool := as.any isCommitAct

/-- The code of the first explicit `WriteHeader` call in the trace. -/
def firstWH : List ReqAction → Option Nat
  | [] => none
  | .writeHeader c :: _ => some c
  | _ :: as => firstWH as

/-- Whether the trace ever sets the header key `k`. -/
def setsKey (as : List ReqAction) (k : String) : Bool :=
  as.any (fun a => match a with | .setHeader k' _ => k' == k | _ => false)

/-- Explicit status-setting actions. -/
def isWH : ReqAction → Bool
  | .writeHeader _ => true
  | _ => false

/-- The header-mutating subtrace. -/
def hdrFilter (as : List ReqAction) : List ReqAction := as.filter isHdrAction

/-- The trace with the explicit status-setting actions removed. -/
def dropWH (as : List ReqAction) : List ReqAction := as.filter (fun a => !(isWH a))

/-- Model of the net/http server-side response writer: mutable headers, a
status that is committed at most once (later `WriteHeader` calls are
ignored by net/http), a snapshot of the headers as they are sent, and the
body bytes that went to the network. -/
structure RawWriter where
  header : Header
  status : Option Nat
  sentHeader : Option Header
  body : Bytes
deriving DecidableEq, Repr

/-- A pristine per-request response writer. -/
def RawWriter.fresh : RawWriter :=
  { header := [], status := none, sentHeader := none, body := [] }

/-- net/http `WriteHeader`: the first call commits the status and the
headers; superfluous calls are ignored. -/
def RawWriter.WriteHeader (w : RawWriter) (code : Nat) : RawWriter :=
  match w.status with
  | some _ => w
  | none => { w with status := some code, sentHeader := some w.header }

/-- net/http `Write`: commits status `200` if not yet committed, then
appends the bytes to the response body. -/
def RawWriter.Write (w : RawWriter) (b : Bytes) : RawWriter :=
  let w := w.WriteHeader 200
  { w with body := w.body ++ b }

/-- net/http `Write`'s return values: the full length and a nil error
(transport failures are out of scope of the design). -/
def RawWriter.WriteR (w : RawWriter) (b : Bytes) : RawWriter × Nat × Option String :=
  (w.Write b, b.length, none)

/-- Headers the raw writer actually sent (with its status), key `k`. -/
def sentGet (w : RawWriter) (k : String) : String :=
  ((w.sentHeader.map (fun h => hGet h k)).getD "")

/-- Whether a header under `k` was present in the sent header set. -/
def sentHas (w : RawWriter) (k : String) : Bool :=
  ((w.sentHeader.map (fun h => hHas h k)).getD false)

/-- `statusWriter` from `main.go`: embeds the underlying response writer
and records the first status code set through it. -/
structure statusWriter where
  inner : RawWriter
  status : Nat
  wroteHeader : Bool
deriving DecidableEq, Repr

/-- `statusWriter.WriteHeader`: record the code if it is the first call,
then forward to the embedded writer unconditionally. -/
def statusWriter.WriteHeader (s : statusWriter) (code : Nat) : statusWriter :=
  let s := if s.wroteHeader then s else { s with status := code, wroteHeader := true }
  { s with inner := s.inner.WriteHeader code }

/-- `statusWriter` does not override `Write`: the embedded writer's
method is promoted. -/
def statusWriter.WriteR (s : statusWriter) (b : Bytes) : statusWriter × Nat × Option String :=
  let r := s.inner.WriteR b
  ({ s with inner := r.1 }, r.2.1, r.2.2)

/-- One handler action interpreted against the `statusWriter` (header
calls reach the embedded writer's header map directly). -/
def statusWriter.step (s : statusWriter) : ReqAction → statusWriter
  | .setHeader k v => { s with inner := { s.inner with header := hSet s.inner.header k v } }
  | .delHeader k => { s with inner := { s.inner with header := hDel s.inner.header k } }
  | .writeHeader c => s.WriteHeader c
  | .write b => (s.WriteR b).1

/-- The base handler run against the `statusWriter` (the non-gzip path). -/
def statusWriter.run (s : statusWriter) (as : List ReqAction) : statusWriter :=
  as.foldl statusWriter.step s

/-- The `statusWriter` the logging middleware creates for a request:
status defaults to `http.StatusOK`. -/
def statusWriter.fresh : statusWriter :=
  { inner := RawWriter.fresh, status := 200, wroteHeader := false }

/-- `gzipResponseWriter` from `main.go`: embeds the writer it wraps (the
`statusWriter` in this program's composition), a possibly-nil buffered
body, the recorded status code, and the commit / pass-through flags. -/
structure gzipResponseWriter where
  inner : statusWriter
  body : Option Bytes
  code : Nat
  wroteHeader : Bool
  passthrough : Bool
deriving DecidableEq, Repr

/-- `&gzipResponseWriter{ResponseWriter: w}`: zero values elsewhere. -/
def gzipResponseWriter.init (w : statusWriter) : gzipResponseWriter :=
  { inner := w, body := none, code := 0, wroteHeader := false, passthrough := false }

/-- `gzipResponseWriter.WriteHeader`: the first call records the code and
classifies the `Content-Type` at that moment; compressible means buffer
(nothing forwarded), anything else means pass-through (code forwarded).
Later calls return immediately. -/
def gzipResponseWriter.WriteHeader (g : gzipResponseWriter) (code : Nat) : gzipResponseWriter :=
  if g.wroteHeader then g
  else
    let g := { g with wroteHeader := true, code := code }
    let ct := hGet g.inner.inner.header "Content-Type"
    if shouldCompress ct then g
    else
      let g := { g with passthrough := true }
      { g with inner := g.inner.WriteHeader code }

/-- `gzipResponseWriter.Write`: commit with `200` if needed, then either
forward (pass-through) or append to the buffer, reporting full success. -/
def gzipResponseWriter.Write (g : gzipResponseWriter) (b : Bytes) : gzipResponseWriter × Nat × Option String :=
  let g := if g.wroteHeader then g else g.WriteHeader 200
  if g.passthrough then
    let r := g.inner.WriteR b
    ({ g with inner := r.1 }, r.2.1, r.2.2)
  else
    ({ g with body := goAppend g.body b }, b.length, none)

/-- One handler action interpreted against the `gzipResponseWriter`. -/
def gzipResponseWriter.step (g : gzipResponseWriter) : ReqAction → gzipResponseWriter
  | .setHeader k v => { g with inner := g.inner.step (.setHeader k v) }
  | .delHeader k => { g with inner := g.inner.step (.delHeader k) }
  | .writeHeader c => g.WriteHeader c
  | .write b => (g.Write b).1

/-- The base handler run against the `gzipResponseWriter`. -/
def gzipResponseWriter.run (g : gzipResponseWriter) (as : List ReqAction) : gzipResponseWriter :=
  as.foldl gzipResponseWriter.step g

/-- Interaction of the flush step with the `sync.Pool` of `gzip.Writer`s
and the drawn encoder: `Get`, `Reset(w)`, `Write(body)`, `Close`, `Put`. -/
inductive PoolEvent where
  | get
  | reset
  | write (b : Bytes)
  | close
  | put
deriving DecidableEq, Repr

/-- `gzipMiddleware` from `main.go`, also returning the pool/encoder event
trace of its flush step.  `comp` is the byte transformation performed by
the pooled `gzip.Writer` bound to `w` (`Reset`, one `Write`, `Close`). -/
def gzipMiddlewareE (comp : Bytes → Bytes) (as : List ReqAction)
    (acceptEncoding : String) (w : statusWriter) : statusWriter × List PoolEvent :=
  if goContains acceptEncoding "gzip" = false then
    (w.run as, [])
  else
    let grw := (gzipResponseWriter.init w).run as
    match grw.body with
    | none => (grw.inner, [])
    | some body =>
      let w := grw.inner
      let h := hDel (hSet w.inner.header "Content-Encoding" "gzip") "Content-Length"
      let w := { w with inner := { w.inner with header := h } }
      let w := w.WriteHeader grw.code
      let w := (w.WriteR (comp body)).1
      (w, [.get, .reset, .write body, .close, .put])

/-- `gzipMiddleware`'s effect on the response writer it wraps. -/
def gzipMiddleware (comp : Bytes → Bytes) (as : List ReqAction)
    (acceptEncoding : String) (w : statusWriter) : statusWriter :=
  (gzipMiddlewareE comp as acceptEncoding w).1

/-- The one record per request the logging middleware emits
(`method path status duration`; wall time is not modelled). -/
structure LogRecord where
  method : String
  path : String
  status : Nat
deriving DecidableEq, Repr

/-- `loggingMiddleware (gzipMiddleware handler)` applied to one request,
as composed in `main`: wraps a fresh response writer in a `statusWriter`,
runs the gzip layer, and logs the recorded status. -/
def loggingMiddleware (comp : Bytes → Bytes) (method path acceptEncoding : String)
    (as : List ReqAction) : RawWriter × LogRecord :=
  let sw := statusWriter.fresh
  let sw := gzipMiddleware comp as acceptEncoding sw
  (sw.inner, { method := method, path := path, status := sw.status })

/-- A concrete stand-in codec used to instantiate `comp` on witnesses:
prepends the two gzip magic bytes. -/
def tagComp (b : Bytes) : Bytes := 31 :: 139 :: b

/-- Inverse of `tagComp`. -/
def tagDecomp (b : Bytes) : Bytes := b.drop 2

/-! ### Basic lemmas about traces, headers and Go slice append -/

theorem tag_roundtrip (b : Bytes) : tagDecomp (tagComp b) = b := rfl

theorem goAppend_assoc (o : Option Bytes) (a b : Bytes) :
    goAppend (goAppend o a) b = goAppend o (a ++ b) := by
  cases o with
  | none =>
    cases a with
    | nil => simp [goAppend]
    | cons x xs =>
      cases b with
      | nil => simp [goAppend]
      | cons y ys => simp [goAppend]
  | some a0 =>
    cases b with
    | nil => simp [goAppend]
    | cons y ys => simp [goAppend]

theorem goAppend_none_eq_some (x b : Bytes) (h : goAppend none x = some b) : x = b := by
  cases x with
  | nil => simp [goAppend] at h
  | cons y ys => simpa [goAppend] using h

theorem writtenBytes_append (as bs : List ReqAction) :
    writtenBytes (as ++ bs) = writtenBytes as ++ writtenBytes bs := by
  induction as with
  | nil => rfl
  | cons a as ih => cases a <;> simp [writtenBytes, ih]

theorem writtenBytes_hdrFilter (as : List ReqAction) :
    writtenBytes (hdrFilter as) = [] := by
  induction as with
  | nil => rfl
  | cons a as ih =>
    cases a <;> simp [hdrFilter, List.filter_cons, isHdrAction, writtenBytes] at ih ⊢ <;>
      simp [writtenBytes, ih]

theorem writtenBytes_of_hdrOnly (as : List ReqAction) (h : isHdrOnly as = true) :
    writtenBytes as = [] := by
  induction as with
  | nil => rfl
  | cons a as ih =>
    rw [isHdrOnly, List.all_cons, Bool.and_eq_true] at h
    have h2 : writtenBytes as = [] := ih (by rw [isHdrOnly]; exact h.2)
    cases a with
    | setHeader k v => simpa [writtenBytes] using h2
    | delHeader k => simpa [writtenBytes] using h2
    | writeHeader c => exact absurd h.1 (by simp [isHdrAction])
    | write b => exact absurd h.1 (by simp [isHdrAction])

theorem writtenBytes_dropWH (as : List ReqAction) :
    writtenBytes (dropWH as) = writtenBytes as := by
  induction as with
  | nil => rfl
  | cons a as ih =>
    cases a <;> simp [dropWH, List.filter_cons, isWH, writtenBytes] at ih ⊢ <;>
      simp [writtenBytes, ih]

theorem hasWH_dropWH (as : List ReqAction) :
    (dropWH as).any isWH = false := by
  rw [List.any_eq_false]
  intro a ha
  rw [dropWH, List.mem_filter] at ha
  simpa using ha.2

theorem isHdrOnly_hdrFilter (as : List ReqAction) :
    isHdrOnly (hdrFilter as) = true := by
  rw [isHdrOnly, List.all_eq_true]
  intro a ha
  rw [hdrFilter, List.mem_filter] at ha
  exact ha.2

theorem hHas_del (h : Header) (k k' : String) (hk : hHas h k = false) :
    hHas (hDel h k') k = false := by
  rw [hHas, List.any_eq_false] at hk ⊢
  intro p hp
  rw [hDel, List.mem_filter] at hp
  exact hk p hp.1

theorem hHas_set (h : Header) (k k' v : String) (hne : (k' == k) = false)
    (hk : hHas h k = false) : hHas (hSet h k' v) k = false := by
  have hd := hHas_del h k k' hk
  rw [hHas, List.any_eq_false] at hd ⊢
  intro p hp
  rw [hSet, List.mem_cons] at hp
  cases hp with
  | inl hp => rw [hp]; simpa using hne
  | inr hp => exact hd p hp

theorem hGet_of_not_has (h : Header) (k : String) (hk : hHas h k = false) :
    hGet h k = "" := by
  rw [hHas, List.any_eq_false] at hk
  have hf : h.find? (fun p => p.1 == k) = none := List.find?_eq_none.mpr hk
  rw [hGet, hf]
  rfl

theorem hGet_set_self (h : Header) (k v : String) : hGet (hSet h k v) k = v := by
  rw [hSet, hGet, List.find?_cons_of_pos _ (by simp)]
  rfl

theorem hGet_cons_eq (p : String × String) (t : Header) (k : String)
    (hpk : (p.1 == k) = true) : hGet (p :: t) k = p.2 := by
  simp [hGet, List.find?_cons, hpk]

theorem hGet_cons_ne (p : String × String) (t : Header) (k : String)
    (hpk : (p.1 == k) = false) : hGet (p :: t) k = hGet t k := by
  simp [hGet, List.find?_cons, hpk]

theorem hGet_del_ne (h : Header) (k k' : String) (hne : (k' == k) = false) :
    hGet (hDel h k') k = hGet h k := by
  induction h with
  | nil => rfl
  | cons p t ih =>
    rw [hDel, List.filter_cons]
    by_cases hp : (p.1 == k') = true
    · have hpk : (p.1 == k) = false := by
        have h1 : p.1 = k' := by simpa using hp
        rw [h1]; exact hne
      simp only [hp, Bool.not_true, Bool.false_eq_true, if_false]
      rw [hGet_cons_ne p t k hpk]
      exact ih
    · have hpb : (p.1 == k') = false := by simpa using hp
      simp only [hpb, Bool.not_false, if_true]
      by_cases hq : (p.1 == k) = true
      · rw [hGet_cons_eq _ _ _ hq, hGet_cons_eq _ _ _ hq]
      · have hqb : (p.1 == k) = false := by simpa using hq
        rw [hGet_cons_ne _ _ _ hqb, hGet_cons_ne _ _ _ hqb]
        exact ih

theorem hGet_del_set (h : Header) (k k' v : String) (hne : (k' == k) = false) :
    hGet (hDel (hSet h k v) k') k = v := by
  rw [hGet_del_ne _ _ _ hne, hGet_set_self]

theorem hHas_del_self (h : Header) (k : String) : hHas (hDel h k) k = false := by
  rw [hHas, List.any_eq_false]
  intro p hp
  rw [hDel, List.mem_filter] at hp
  simpa using hp.2

theorem sentGet_of_not_has (w : RawWriter) (k : String) (hk : sentHas w k = false) :
    sentGet w k = "" := by
  cases hw : w.sentHeader with
  | none => simp [sentGet, hw]
  | some h =>
    simp [sentHas, hw] at hk
    simp [sentGet, hw, hGet_of_not_has h k hk]

/-! ### Lemmas about the raw response writer and the `statusWriter` -/

theorem rw_WriteHeader_header (w : RawWriter) (c : Nat) :
    (w.WriteHeader c).header = w.header := by
  cases h : w.status <;> simp [RawWriter.WriteHeader, h]

theorem rw_WriteHeader_body (w : RawWriter) (c : Nat) :
    (w.WriteHeader c).body = w.body := by
  cases h : w.status <;> simp [RawWriter.WriteHeader, h]

theorem rw_WriteHeader_status_isSome (w : RawWriter) (c : Nat) :
    ((w.WriteHeader c).status).isSome = true := by
  cases h : w.status <;> simp [RawWriter.WriteHeader, h]

theorem rw_WriteHeader_of_some (w : RawWriter) (c : Nat) (h : (w.status).isSome = true) :
    w.WriteHeader c = w := by
  cases hs : w.status with
  | none => rw [hs] at h; simp at h
  | some s => simp [RawWriter.WriteHeader, hs]

theorem rw_Write_body (w : RawWriter) (b : Bytes) :
    (w.Write b).body = w.body ++ b := by
  simp [RawWriter.Write, rw_WriteHeader_body]

theorem rw_Write_header (w : RawWriter) (b : Bytes) :
    (w.Write b).header = w.header := by
  simp [RawWriter.Write, rw_WriteHeader_header]

theorem rw_Write_status_isSome (w : RawWriter) (b : Bytes) :
    ((w.Write b).status).isSome = true := by
  simp [RawWriter.Write, rw_WriteHeader_status_isSome]

theorem rw_Write_status_of_some (w : RawWriter) (b : Bytes) (h : (w.status).isSome = true) :
    (w.Write b).status = w.status := by
  simp [RawWriter.Write, rw_WriteHeader_of_some w 200 h]

theorem rw_Write_sent_of_some (w : RawWriter) (b : Bytes) (h : (w.status).isSome = true) :
    (w.Write b).sentHeader = w.sentHeader := by
  simp [RawWriter.Write, rw_WriteHeader_of_some w 200 h]

theorem sw_WriteHeader_inner (s : statusWriter) (c : Nat) :
    (s.WriteHeader c).inner = s.inner.WriteHeader c := by
  by_cases h : s.wroteHeader = true <;> simp [statusWriter.WriteHeader, h]

theorem sw_WriteHeader_status (s : statusWriter) (c : Nat) :
    (s.WriteHeader c).status = if s.wroteHeader = true then s.status else c := by
  by_cases h : s.wroteHeader = true <;> simp [statusWriter.WriteHeader, h]

theorem sw_WriteHeader_wroteHeader (s : statusWriter) (c : Nat) :
    (s.WriteHeader c).wroteHeader = true := by
  by_cases h : s.wroteHeader = true <;> simp [statusWriter.WriteHeader, h]

theorem sw_WriteR_fst (s : statusWriter) (b : Bytes) :
    (s.WriteR b).1 = { s with inner := s.inner.Write b } := by
  simp [statusWriter.WriteR, RawWriter.WriteR]

theorem sw_run_nil (s : statusWriter) : s.run [] = s := rfl

theorem sw_run_cons (s : statusWriter) (a : ReqAction) (as : List ReqAction) :
    s.run (a :: as) = (s.step a).run as := rfl

theorem sw_run_append (s : statusWriter) (as bs : List ReqAction) :
    s.run (as ++ bs) = (s.run as).run bs := by
  simp [statusWriter.run, List.foldl_append]

theorem gz_run_nil (g : gzipResponseWriter) : g.run [] = g := rfl

theorem gz_run_cons (g : gzipResponseWriter) (a : ReqAction) (as : List ReqAction) :
    g.run (a :: as) = (g.step a).run as := rfl

theorem gz_run_append (g : gzipResponseWriter) (as bs : List ReqAction) :
    g.run (as ++ bs) = (g.run as).run bs := by
  simp [gzipResponseWriter.run, List.foldl_append]

/-- Two `statusWriter` states over the same raw writer stay equal at the
raw-writer level through any handler trace. -/
theorem sw_run_inner_congr (as : List ReqAction) (s t : statusWriter)
    (h : s.inner = t.inner) : (s.run as).inner = (t.run as).inner := by
  induction as generalizing s t with
  | nil => simpa [sw_run_nil]
  | cons a as ih =>
    rw [sw_run_cons, sw_run_cons]
    cases a with
    | setHeader k v => exact ih _ _ (by simp [statusWriter.step, h])
    | delHeader k => exact ih _ _ (by simp [statusWriter.step, h])
    | writeHeader c =>
      exact ih _ _ (by simp [statusWriter.step, sw_WriteHeader_inner, h])
    | write b => exact ih _ _ (by simp [statusWriter.step, sw_WriteR_fst, h])

/-- The raw body accumulates exactly the handler's written bytes. -/
theorem sw_run_body (as : List ReqAction) (s : statusWriter) :
    (s.run as).inner.body = s.inner.body ++ writtenBytes as := by
  induction as generalizing s with
  | nil => simp [sw_run_nil, writtenBytes]
  | cons a as ih =>
    rw [sw_run_cons]
    cases a with
    | setHeader k v => simp [statusWriter.step, ih, writtenBytes]
    | delHeader k => simp [statusWriter.step, ih, writtenBytes]
    | writeHeader c =>
      simp [statusWriter.step, ih, writtenBytes, sw_WriteHeader_inner, rw_WriteHeader_body]
    | write b =>
      simp [statusWriter.step, ih, writtenBytes, sw_WriteR_fst, rw_Write_body]

/-- Once the `statusWriter` has recorded a status, later actions leave the
recorded status untouched. -/
theorem sw_run_committed (as : List ReqAction) (s : statusWriter)
    (h : s.wroteHeader = true) :
    (s.run as).status = s.status ∧ (s.run as).wroteHeader = true := by
  induction as generalizing s with
  | nil => simp [sw_run_nil, h]
  | cons a as ih =>
    rw [sw_run_cons]
    cases a with
    | setHeader k v => exact ih _ (by simp [statusWriter.step, h])
    | delHeader k => exact ih _ (by simp [statusWriter.step, h])
    | writeHeader c =>
      have := ih (s.WriteHeader c) (sw_WriteHeader_wroteHeader s c)
      simpa [statusWriter.step, sw_WriteHeader_status, h] using this
    | write b => exact ih _ (by simp [statusWriter.step, sw_WriteR_fst, h])

/-- The recorded status is the first explicitly set code (default kept
when none is set): `statusWriter` does not intercept body writes. -/
theorem sw_run_status (as : List ReqAction) (s : statusWriter)
    (h : s.wroteHeader = false) :
    (s.run as).status = (firstWH as).getD s.status := by
  induction as generalizing s with
  | nil => simp [sw_run_nil, firstWH]
  | cons a as ih =>
    rw [sw_run_cons]
    cases a with
    | setHeader k v => simpa [statusWriter.step, firstWH] using ih _ (by simp [statusWriter.step, h])
    | delHeader k => simpa [statusWriter.step, firstWH] using ih _ (by simp [statusWriter.step, h])
    | writeHeader c =>
      have hw : (s.step (.writeHeader c)).wroteHeader = true := by
        simp [statusWriter.step, sw_WriteHeader_wroteHeader]
      have := (sw_run_committed as _ hw).1
      rw [this]
      simp [statusWriter.step, sw_WriteHeader_status, h, firstWH]
    | write b => simpa [statusWriter.step, firstWH] using ih _ (by simp [statusWriter.step, sw_WriteR_fst, h])

/-- A trace without explicit status sets does not move the recorded
status nor the commit flag of the `statusWriter`. -/
theorem sw_run_noWH (as : List ReqAction) (s : statusWriter)
    (h : as.any isWH = false) :
    (s.run as).status = s.status ∧ (s.run as).wroteHeader = s.wroteHeader := by
  induction as generalizing s with
  | nil => simp [sw_run_nil]
  | cons a as ih =>
    rw [List.any_cons, Bool.or_eq_false_iff] at h
    rw [sw_run_cons]
    cases a with
    | setHeader k v => simpa [statusWriter.step] using ih _ h.2
    | delHeader k => simpa [statusWriter.step] using ih _ h.2
    | writeHeader c => simp [isWH] at h
    | write b => simpa [statusWriter.step, sw_WriteR_fst] using ih _ h.2

/-- Once the raw status is committed it stays committed. -/
theorem sw_run_keep_some (as : List ReqAction) (s : statusWriter)
    (h : (s.inner.status).isSome = true) :
    (((s.run as).inner).status).isSome = true := by
  induction as generalizing s with
  | nil => simpa [sw_run_nil]
  | cons a as ih =>
    rw [sw_run_cons]
    cases a with
    | setHeader k v => exact ih _ (by simpa [statusWriter.step])
    | delHeader k => exact ih _ (by simpa [statusWriter.step])
    | writeHeader c =>
      exact ih _ (by simp [statusWriter.step, sw_WriteHeader_inner, rw_WriteHeader_status_isSome])
    | write b =>
      exact ih _ (by simp [statusWriter.step, sw_WriteR_fst, rw_Write_status_isSome])

/-- A trace containing a status-committing action commits the raw status. -/
theorem sw_run_hasCommit (as : List ReqAction) (s : statusWriter)
    (h : hasCommit as = true) :
    (((s.run as).inner).status).isSome = true := by
  induction as generalizing s with
  | nil => simp [hasCommit] at h
  | cons a as ih =>
    rw [hasCommit, List.any_cons, Bool.or_eq_true] at h
    rw [sw_run_cons]
    cases a with
    | setHeader k v =>
      refine ih _ ?_
      rcases h with h | h
      · simp [isCommitAct] at h
      · exact h
    | delHeader k =>
      refine ih _ ?_
      rcases h with h | h
      · simp [isCommitAct] at h
      · exact h
    | writeHeader c =>
      exact sw_run_keep_some as _ (by simp [statusWriter.step, sw_WriteHeader_inner, rw_WriteHeader_status_isSome])
    | write b =>
      exact sw_run_keep_some as _ (by simp [statusWriter.step, sw_WriteR_fst, rw_Write_status_isSome])

/-- Header-only traces touch nothing but the raw header map. -/
theorem sw_run_hdrOnly (as : List ReqAction) (s : statusWriter)
    (h : isHdrOnly as = true) :
    (s.run as).inner.status = s.inner.status ∧
    (s.run as).inner.sentHeader = s.inner.sentHeader ∧
    (s.run as).inner.body = s.inner.body ∧
    (s.run as).status = s.status ∧
    (s.run as).wroteHeader = s.wroteHeader := by
  induction as generalizing s with
  | nil => simp [sw_run_nil]
  | cons a as ih =>
    rw [isHdrOnly, List.all_cons, Bool.and_eq_true] at h
    have h2 : isHdrOnly as = true := h.2
    rw [sw_run_cons]
    cases a with
    | setHeader k v => simpa [statusWriter.step] using ih _ h2
    | delHeader k => simpa [statusWriter.step] using ih _ h2
    | writeHeader c => exact absurd h.1 (by simp [isHdrAction])
    | write b => exact absurd h.1 (by simp [isHdrAction])

theorem dropWH_cons (a : ReqAction) (as : List ReqAction) :
    dropWH (a :: as) = if isWH a = true then dropWH as else a :: dropWH as := by
  rw [dropWH, List.filter_cons]
  by_cases h : isWH a = true <;> simp [h, dropWH]

/-- After the raw status is committed, explicit status-set actions are
invisible at the raw-writer level. -/
theorem sw_run_dropWH (as : List ReqAction) (s : statusWriter)
    (h : (s.inner.status).isSome = true) :
    (s.run as).inner = (s.run (dropWH as)).inner := by
  induction as generalizing s with
  | nil => simp [sw_run_nil, dropWH]
  | cons a as ih =>
    rw [dropWH_cons]
    cases a with
    | setHeader k v =>
      simp only [isWH, Bool.false_eq_true, if_false]
      rw [sw_run_cons, sw_run_cons]
      exact ih _ (by simpa [statusWriter.step])
    | delHeader k =>
      simp only [isWH, Bool.false_eq_true, if_false]
      rw [sw_run_cons, sw_run_cons]
      exact ih _ (by simpa [statusWriter.step])
    | writeHeader c =>
      simp only [isWH, if_true]
      rw [sw_run_cons]
      have hstep : (s.step (.writeHeader c)).inner = s.inner := by
        simp [statusWriter.step, sw_WriteHeader_inner, rw_WriteHeader_of_some _ _ h]
      calc ((s.step (.writeHeader c)).run as).inner
          = (s.run as).inner := sw_run_inner_congr as _ _ hstep
        _ = (s.run (dropWH as)).inner := ih s h
    | write b =>
      simp only [isWH, Bool.false_eq_true, if_false]
      rw [sw_run_cons, sw_run_cons]
      exact ih _ (by simp [statusWriter.step, sw_WriteR_fst, rw_Write_status_isSome])

/-! ### Lemmas about the `gzipResponseWriter` -/

theorem goAppend_nil (o : Option Bytes) : goAppend o [] = o := by
  cases o <;> simp [goAppend]

theorem hdrFilter_cons (a : ReqAction) (as : List ReqAction) :
    hdrFilter (a :: as) = if isHdrAction a = true then a :: hdrFilter as else hdrFilter as := by
  rw [hdrFilter, List.filter_cons]
  by_cases h : isHdrAction a = true <;> simp [h, hdrFilter]

theorem gz_WriteHeader_committed (g : gzipResponseWriter) (c : Nat)
    (hw : g.wroteHeader = true) : g.WriteHeader c = g := by
  simp [gzipResponseWriter.WriteHeader, hw]

theorem gz_WriteHeader_buf (g : gzipResponseWriter) (c : Nat)
    (hw : g.wroteHeader = false)
    (hsc : shouldCompress (hGet g.inner.inner.header "Content-Type") = true) :
    g.WriteHeader c = { g with wroteHeader := true, code := c } := by
  simp [gzipResponseWriter.WriteHeader, hw, hsc]

theorem gz_WriteHeader_nonbuf (g : gzipResponseWriter) (c : Nat)
    (hw : g.wroteHeader = false)
    (hsc : shouldCompress (hGet g.inner.inner.header "Content-Type") = false) :
    g.WriteHeader c = { g with inner := g.inner.WriteHeader c, wroteHeader := true, code := c, passthrough := true } := by
  simp [gzipResponseWriter.WriteHeader, hw, hsc]

theorem gz_WriteHeader_wh (g : gzipResponseWriter) (c : Nat) :
    (g.WriteHeader c).wroteHeader = true := by
  by_cases hw : g.wroteHeader = true
  · simp [gz_WriteHeader_committed g c hw, hw]
  · have hw2 : g.wroteHeader = false := by simpa using hw
    by_cases hsc : shouldCompress (hGet g.inner.inner.header "Content-Type") = true
    · simp [gz_WriteHeader_buf g c hw2 hsc]
    · simp [gz_WriteHeader_nonbuf g c hw2 (by simpa using hsc)]

theorem gz_Write_buf (g : gzipResponseWriter) (b : Bytes)
    (hw : g.wroteHeader = true) (hp : g.passthrough = false) :
    g.Write b = ({ g with body := goAppend g.body b }, b.length, none) := by
  simp [gzipResponseWriter.Write, hw, hp]

theorem gz_Write_pt (g : gzipResponseWriter) (b : Bytes)
    (hw : g.wroteHeader = true) (hp : g.passthrough = true) :
    g.Write b = ({ g with inner := { g.inner with inner := g.inner.inner.Write b } },
      b.length, none) := by
  simp [gzipResponseWriter.Write, hw, hp, statusWriter.WriteR, RawWriter.WriteR]

theorem gz_Write_uncommitted (g : gzipResponseWriter) (b : Bytes)
    (hw : g.wroteHeader = false) :
    g.Write b = (g.WriteHeader 200).Write b := by
  rw [gzipResponseWriter.Write, gzipResponseWriter.Write]
  simp [hw, gz_WriteHeader_wh g 200]

theorem gz_step_keep_wh (g : gzipResponseWriter) (a : ReqAction)
    (hw : g.wroteHeader = true) : (g.step a).wroteHeader = true := by
  cases a with
  | setHeader k v => simpa [gzipResponseWriter.step]
  | delHeader k => simpa [gzipResponseWriter.step]
  | writeHeader c => simp [gzipResponseWriter.step, gz_WriteHeader_committed g c hw, hw]
  | write b =>
    by_cases hp : g.passthrough = true
    · simp [gzipResponseWriter.step, gz_Write_pt g b hw hp, hw]
    · simp [gzipResponseWriter.step, gz_Write_buf g b hw (by simpa using hp), hw]

theorem gz_step_commit (g : gzipResponseWriter) (a : ReqAction)
    (hc : isCommitAct a = true) : (g.step a).wroteHeader = true := by
  cases a with
  | setHeader k v => simp [isCommitAct] at hc
  | delHeader k => simp [isCommitAct] at hc
  | writeHeader c => simpa [gzipResponseWriter.step] using gz_WriteHeader_wh g c
  | write b =>
    by_cases hw : g.wroteHeader = true
    · exact gz_step_keep_wh g _ hw
    · have hw2 : g.wroteHeader = false := by simpa using hw
      rw [gzipResponseWriter.step, gz_Write_uncommitted g b hw2]
      have h200 := gz_WriteHeader_wh g 200
      by_cases hp : (g.WriteHeader 200).passthrough = true
      · simp [gz_Write_pt _ b h200 hp, h200]
      · simp [gz_Write_buf _ b h200 (by simpa using hp), h200]

theorem gz_run_keep_wh (as : List ReqAction) (g : gzipResponseWriter)
    (hw : g.wroteHeader = true) : (g.run as).wroteHeader = true := by
  induction as generalizing g with
  | nil => simpa [gz_run_nil]
  | cons a as ih => exact ih _ (gz_step_keep_wh g a hw)

theorem gz_run_hasCommit (as : List ReqAction) (g : gzipResponseWriter)
    (h : hasCommit as = true) : (g.run as).wroteHeader = true := by
  induction as generalizing g with
  | nil => simp [hasCommit] at h
  | cons a as ih =>
    rw [hasCommit, List.any_cons, Bool.or_eq_true] at h
    rw [gz_run_cons]
    by_cases hc : isCommitAct a = true
    · exact gz_run_keep_wh as _ (gz_step_commit g a hc)
    · refine ih _ ?_
      rcases h with h | h
      · exact absurd h hc
      · exact h

theorem gz_WriteHeader_keep_pt (g : gzipResponseWriter) (c : Nat)
    (hp : g.passthrough = true) : (g.WriteHeader c).passthrough = true := by
  by_cases hw : g.wroteHeader = true
  · simp [gz_WriteHeader_committed g c hw, hp]
  · have hw2 : g.wroteHeader = false := by simpa using hw
    by_cases hsc : shouldCompress (hGet g.inner.inner.header "Content-Type") = true
    · simp [gz_WriteHeader_buf g c hw2 hsc, hp]
    · simp [gz_WriteHeader_nonbuf g c hw2 (by simpa using hsc)]

theorem gz_step_keep_pt (g : gzipResponseWriter) (a : ReqAction)
    (hp : g.passthrough = true) : (g.step a).passthrough = true := by
  cases a with
  | setHeader k v => simpa [gzipResponseWriter.step]
  | delHeader k => simpa [gzipResponseWriter.step]
  | writeHeader c => simpa [gzipResponseWriter.step] using gz_WriteHeader_keep_pt g c hp
  | write b =>
    by_cases hw : g.wroteHeader = true
    · simp [gzipResponseWriter.step, gz_Write_pt g b hw hp, hp]
    · have hw2 : g.wroteHeader = false := by simpa using hw
      rw [gzipResponseWriter.step, gz_Write_uncommitted g b hw2]
      have h200 := gz_WriteHeader_wh g 200
      have hp200 := gz_WriteHeader_keep_pt g 200 hp
      simp [gz_Write_pt _ b h200 hp200, hp200]

theorem gz_run_keep_pt (as : List ReqAction) (g : gzipResponseWriter)
    (hp : g.passthrough = true) : (g.run as).passthrough = true := by
  induction as generalizing g with
  | nil => simpa [gz_run_nil]
  | cons a as ih => exact ih _ (gz_step_keep_pt g a hp)

theorem gz_run_pt_false (as : List ReqAction) (g : gzipResponseWriter)
    (h : (g.run as).passthrough = false) : g.passthrough = false := by
  by_cases hp : g.passthrough = true
  · rw [gz_run_keep_pt as g hp] at h
    exact absurd h (by simp)
  · simpa using hp

/-- Buffering mode is absorbing: once committed without pass-through, the
run buffers every written byte, swallows every status set, and touches the
wrapped writer only through header mutations. -/
theorem gz_run_buf (as : List ReqAction) (g : gzipResponseWriter)
    (hw : g.wroteHeader = true) (hp : g.passthrough = false) :
    g.run as = { g with inner := g.inner.run (hdrFilter as), body := goAppend g.body (writtenBytes as) } := by
  induction as generalizing g with
  | nil =>
    simp [gz_run_nil, hdrFilter, sw_run_nil, writtenBytes, goAppend_nil]
  | cons a as ih =>
    rw [gz_run_cons, hdrFilter_cons]
    cases a with
    | setHeader k v =>
      rw [ih _ (by simpa [gzipResponseWriter.step]) (by simpa [gzipResponseWriter.step])]
      simp [gzipResponseWriter.step, isHdrAction, sw_run_cons, writtenBytes]
    | delHeader k =>
      rw [ih _ (by simpa [gzipResponseWriter.step]) (by simpa [gzipResponseWriter.step])]
      simp [gzipResponseWriter.step, isHdrAction, sw_run_cons, writtenBytes]
    | writeHeader c =>
      have hstep : g.step (.writeHeader c) = g := by
        simpa [gzipResponseWriter.step] using gz_WriteHeader_committed g c hw
      rw [hstep, ih g hw hp]
      simp [isHdrAction, writtenBytes]
    | write b =>
      have hstep : g.step (.write b) = { g with body := goAppend g.body b } := by
        simp [gzipResponseWriter.step, gz_Write_buf g b hw hp]
      rw [hstep, ih _ (by simpa using hw) (by simpa using hp)]
      simp [isHdrAction, writtenBytes, goAppend_assoc]
  
/-- Pass-through mode is absorbing: the run forwards everything except
later explicit status sets, and never starts buffering. -/
theorem gz_run_pt (as : List ReqAction) (g : gzipResponseWriter)
    (hw : g.wroteHeader = true) (hp : g.passthrough = true) :
    g.run as = { g with inner := g.inner.run (dropWH as) } := by
  induction as generalizing g with
  | nil => simp [gz_run_nil, dropWH, sw_run_nil]
  | cons a as ih =>
    rw [gz_run_cons, dropWH_cons]
    cases a with
    | setHeader k v =>
      rw [ih _ (by simpa [gzipResponseWriter.step]) (by simpa [gzipResponseWriter.step])]
      simp [gzipResponseWriter.step, isWH, sw_run_cons]
    | delHeader k =>
      rw [ih _ (by simpa [gzipResponseWriter.step]) (by simpa [gzipResponseWriter.step])]
      simp [gzipResponseWriter.step, isWH, sw_run_cons]
    | writeHeader c =>
      have hstep : g.step (.writeHeader c) = g := by
        simpa [gzipResponseWriter.step] using gz_WriteHeader_committed g c hw
      rw [hstep, ih g hw hp]
      simp [isWH]
    | write b =>
      have hstep : g.step (.write b) = { g with inner := { g.inner with inner := g.inner.inner.Write b } } := by
        simp [gzipResponseWriter.step, gz_Write_pt g b hw hp]
      rw [hstep, ih _ (by simpa using hw) (by simpa using hp)]
      simp [isWH, sw_run_cons, statusWriter.step, sw_WriteR_fst]

/-- Reachability invariant of the gzip decorator: before commit nothing is
buffered and the wrapped writer has recorded nothing; in pass-through mode
the buffer is empty and the recorded code was already forwarded to the
wrapped writer. -/
def GInv (g : gzipResponseWriter) : Prop :=
  (g.wroteHeader = false → g.body = none ∧ g.passthrough = false ∧ g.inner.wroteHeader = false) ∧
  (g.passthrough = true → g.body = none ∧ g.inner.status = g.code ∧ g.wroteHeader = true)

theorem ginv_WriteHeader (g : gzipResponseWriter) (c : Nat) (h : GInv g) :
    GInv (g.WriteHeader c) := by
  by_cases hw : g.wroteHeader = true
  · rw [gz_WriteHeader_committed g c hw]
    exact h
  · have hw2 : g.wroteHeader = false := by simpa using hw
    obtain ⟨hb, hp, hiw⟩ := h.1 hw2
    by_cases hsc : shouldCompress (hGet g.inner.inner.header "Content-Type") = true
    · rw [gz_WriteHeader_buf g c hw2 hsc]
      exact ⟨by intro hx; simp at hx, by intro hx; simp [hp] at hx⟩
    · rw [gz_WriteHeader_nonbuf g c hw2 (by simpa using hsc)]
      refine ⟨by intro hx; simp at hx, ?_⟩
      intro _
      refine ⟨hb, ?_, rfl⟩
      simp [sw_WriteHeader_status, hiw]

theorem ginv_Write (g : gzipResponseWriter) (b : Bytes) (h : GInv g) :
    GInv ((g.Write b).1) := by
  by_cases hw : g.wroteHeader = true
  · by_cases hp : g.passthrough = true
    · obtain ⟨hb, hst, _⟩ := h.2 hp
      rw [gz_Write_pt g b hw hp]
      refine ⟨by intro hx; simp [hw] at hx, ?_⟩
      intro _
      exact ⟨hb, hst, hw⟩
    · rw [gz_Write_buf g b hw (by simpa using hp)]
      refine ⟨by intro hx; simp [hw] at hx, ?_⟩
      intro hx
      simp at hx
      exact absurd hx hp
  · have hw2 : g.wroteHeader = false := by simpa using hw
    rw [gz_Write_uncommitted g b hw2]
    have h2 := ginv_WriteHeader g 200 h
    have hw200 := gz_WriteHeader_wh g 200
    set g2 := g.WriteHeader 200 with hg2
    by_cases hp : g2.passthrough = true
    · obtain ⟨hb, hst, _⟩ := h2.2 hp
      rw [gz_Write_pt g2 b hw200 hp]
      refine ⟨by intro hx; simp [hw200] at hx, ?_⟩
      intro _
      exact ⟨hb, hst, hw200⟩
    · rw [gz_Write_buf g2 b hw200 (by simpa using hp)]
      refine ⟨by intro hx; simp [hw200] at hx, ?_⟩
      intro hx
      simp at hx
      exact absurd hx hp

theorem ginv_step (g : gzipResponseWriter) (a : ReqAction) (h : GInv g) :
    GInv (g.step a) := by
  cases a with
  | setHeader k v =>
    refine ⟨?_, ?_⟩
    · intro hx
      simp [gzipResponseWriter.step] at hx ⊢
      simpa [statusWriter.step] using h.1 hx
    · intro hx
      simp [gzipResponseWriter.step] at hx ⊢
      simpa [statusWriter.step] using h.2 hx
  | delHeader k =>
    refine ⟨?_, ?_⟩
    · intro hx
      simp [gzipResponseWriter.step] at hx ⊢
      simpa [statusWriter.step] using h.1 hx
    · intro hx
      simp [gzipResponseWriter.step] at hx ⊢
      simpa [statusWriter.step] using h.2 hx
  | writeHeader c => simpa [gzipResponseWriter.step] using ginv_WriteHeader g c h
  | write b => simpa [gzipResponseWriter.step] using ginv_Write g b h

theorem ginv_run (as : List ReqAction) (g : gzipResponseWriter) (h : GInv g) :
    GInv (g.run as) := by
  induction as generalizing g with
  | nil => simpa [gz_run_nil]
  | cons a as ih => exact ih _ (ginv_step g a h)

theorem ginv_init (w : statusWriter) (hw : w.wroteHeader = false) :
    GInv (gzipResponseWriter.init w) := by
  constructor
  · intro _
    exact ⟨rfl, rfl, hw⟩
  · intro hx
    simp [gzipResponseWriter.init] at hx

/-- A run that ends outside pass-through buffered every written byte and
touched the wrapped writer only through header mutations. -/
theorem gz_run_npt (as : List ReqAction) (g : gzipResponseWriter)
    (h : (g.run as).passthrough = false) :
    (g.run as).inner = g.inner.run (hdrFilter as) ∧
    (g.run as).body = goAppend g.body (writtenBytes as) := by
  induction as generalizing g with
  | nil => simp [gz_run_nil, hdrFilter, sw_run_nil, goAppend_nil, writtenBytes]
  | cons a as ih =>
    rw [gz_run_cons] at h ⊢
    have hstep : (g.step a).passthrough = false := gz_run_pt_false as _ h
    have hg : g.passthrough = false := by
      by_cases hp : g.passthrough = true
      · rw [gz_step_keep_pt g a hp] at hstep
        exact absurd hstep (by simp)
      · simpa using hp
    rw [hdrFilter_cons]
    cases a with
    | setHeader k v =>
      obtain ⟨ih1, ih2⟩ := ih _ h
      constructor
      · rw [ih1]; simp [gzipResponseWriter.step, isHdrAction, sw_run_cons]
      · rw [ih2]; simp [gzipResponseWriter.step, writtenBytes]
    | delHeader k =>
      obtain ⟨ih1, ih2⟩ := ih _ h
      constructor
      · rw [ih1]; simp [gzipResponseWriter.step, isHdrAction, sw_run_cons]
      · rw [ih2]; simp [gzipResponseWriter.step, writtenBytes]
    | writeHeader c =>
      by_cases hw : g.wroteHeader = true
      · have hs : g.step (.writeHeader c) = g := by
          simpa [gzipResponseWriter.step] using gz_WriteHeader_committed g c hw
        rw [hs] at h ⊢
        obtain ⟨ih1, ih2⟩ := ih g h
        constructor
        · rw [ih1]; simp [isHdrAction]
        · rw [ih2]; simp [writtenBytes]
      · have hw2 : g.wroteHeader = false := by simpa using hw
        by_cases hsc : shouldCompress (hGet g.inner.inner.header "Content-Type") = true
        · have hs : g.step (.writeHeader c) = { g with wroteHeader := true, code := c } := by
            simpa [gzipResponseWriter.step] using gz_WriteHeader_buf g c hw2 hsc
          rw [hs] at h ⊢
          obtain ⟨ih1, ih2⟩ := ih _ h
          constructor
          · rw [ih1]; simp [isHdrAction]
          · rw [ih2]; simp [writtenBytes]
        · exfalso
          have hs : (g.step (.writeHeader c)).passthrough = true := by
            simp [gzipResponseWriter.step, gz_WriteHeader_nonbuf g c hw2 (by simpa using hsc)]
          rw [hs] at hstep
          exact absurd hstep (by simp)
    | write b =>
      by_cases hw : g.wroteHeader = true
      · have hs : g.step (.write b) = { g with body := goAppend g.body b } := by
          simp [gzipResponseWriter.step, gz_Write_buf g b hw hg]
        rw [hs] at h ⊢
        obtain ⟨ih1, ih2⟩ := ih _ h
        constructor
        · rw [ih1]; simp [isHdrAction]
        · rw [ih2]; simp [writtenBytes, goAppend_assoc]
      · have hw2 : g.wroteHeader = false := by simpa using hw
        by_cases hsc : shouldCompress (hGet g.inner.inner.header "Content-Type") = true
        · have hbuf : (g.WriteHeader 200) = { g with wroteHeader := true, code := 200 } :=
            gz_WriteHeader_buf g 200 hw2 hsc
          have hs : g.step (.write b) = { g with body := goAppend g.body b, code := 200, wroteHeader := true } := by
            rw [gzipResponseWriter.step, gz_Write_uncommitted g b hw2, hbuf]
            rw [gz_Write_buf _ b rfl (by simpa using hg)]
          rw [hs] at h ⊢
          obtain ⟨ih1, ih2⟩ := ih _ h
          constructor
          · rw [ih1]; simp [isHdrAction]
          · rw [ih2]; simp [writtenBytes, goAppend_assoc]
        · exfalso
          have hnb : (g.WriteHeader 200) = { g with inner := g.inner.WriteHeader 200, wroteHeader := true, code := 200, passthrough := true } :=
            gz_WriteHeader_nonbuf g 200 hw2 (by simpa using hsc)
          have hs : (g.step (.write b)).passthrough = true := by
            rw [gzipResponseWriter.step, gz_Write_uncommitted g b hw2, hnb]
            rw [gz_Write_pt _ b rfl rfl]
          rw [hs] at hstep
          exact absurd hstep (by simp)

/-- A header-only handler subtrace commutes with wrapping in the gzip
decorator. -/
theorem gz_init_run_hdrOnly (pre : List ReqAction) (w : statusWriter)
    (h : isHdrOnly pre = true) :
    (gzipResponseWriter.init w).run pre = gzipResponseWriter.init (w.run pre) := by
  induction pre generalizing w with
  | nil => simp [gz_run_nil, sw_run_nil]
  | cons a as ih =>
    rw [isHdrOnly, List.all_cons, Bool.and_eq_true] at h
    rw [gz_run_cons, sw_run_cons]
    cases a with
    | setHeader k v =>
      have hs : (gzipResponseWriter.init w).step (.setHeader k v) = gzipResponseWriter.init (w.step (.setHeader k v)) := by
        simp [gzipResponseWriter.step, gzipResponseWriter.init]
      rw [hs]
      exact ih _ (by rw [isHdrOnly]; exact h.2)
    | delHeader k =>
      have hs : (gzipResponseWriter.init w).step (.delHeader k) = gzipResponseWriter.init (w.step (.delHeader k)) := by
        simp [gzipResponseWriter.step, gzipResponseWriter.init]
      rw [hs]
      exact ih _ (by rw [isHdrOnly]; exact h.2)
    | writeHeader c => exact absurd h.1 (by simp [isHdrAction])
    | write b => exact absurd h.1 (by simp [isHdrAction])

/-- A buffer `some b` means every written byte was buffered: `b` is the
handler's full body. -/
theorem buffered_eq_written (as : List ReqAction) (b : Bytes)
    (hb : ((gzipResponseWriter.init statusWriter.fresh).run as).body = some b) :
    b = writtenBytes as := by
  have hginv := ginv_run as _ (ginv_init statusWriter.fresh rfl)
  have hpt : ((gzipResponseWriter.init statusWriter.fresh).run as).passthrough = false := by
    by_cases hp : ((gzipResponseWriter.init statusWriter.fresh).run as).passthrough = true
    · rw [(hginv.2 hp).1] at hb
      cases hb
    · simpa using hp
  have hnpt := (gz_run_npt as _ hpt).2
  rw [hb] at hnpt
  exact (goAppend_none_eq_some _ b hnpt.symm).symm



/-- Full characterisation of the flush step when a body was buffered:
gzip headers are sent with the recorded status, the compressed buffer is
the entire raw body, and the logging wrapper records the same status. -/
theorem flush_char (comp : Bytes → Bytes) (as : List ReqAction) (ae : String) (b : Bytes)
    (hae : goContains ae "gzip" = true)
    (hb : ((gzipResponseWriter.init statusWriter.fresh).run as).body = some b) :
    (gzipMiddleware comp as ae statusWriter.fresh).inner.status = some ((gzipResponseWriter.init statusWriter.fresh).run as).code ∧
    sentGet (gzipMiddleware comp as ae statusWriter.fresh).inner "Content-Encoding" = "gzip" ∧
    sentHas (gzipMiddleware comp as ae statusWriter.fresh).inner "Content-Length" = false ∧
    (gzipMiddleware comp as ae statusWriter.fresh).inner.body = comp b ∧
    (gzipMiddleware comp as ae statusWriter.fresh).status = ((gzipResponseWriter.init statusWriter.fresh).run as).code := by
  have hginv := ginv_run as _ (ginv_init statusWriter.fresh rfl)
  have hpt : ((gzipResponseWriter.init statusWriter.fresh).run as).passthrough = false := by
    by_cases hp : ((gzipResponseWriter.init statusWriter.fresh).run as).passthrough = true
    · rw [(hginv.2 hp).1] at hb
      cases hb
    · simpa using hp
  have hinner : ((gzipResponseWriter.init statusWriter.fresh).run as).inner = statusWriter.fresh.run (hdrFilter as) := (gz_run_npt as _ hpt).1
  obtain ⟨hst0, hsent0, hbody0, hswst0, hswwh0⟩ := sw_run_hdrOnly (hdrFilter as) statusWriter.fresh (isHdrOnly_hdrFilter as)
  have hst : ((gzipResponseWriter.init statusWriter.fresh).run as).inner.inner.status = none := by
    rw [hinner, hst0]
    rfl
  have hbody : ((gzipResponseWriter.init statusWriter.fresh).run as).inner.inner.body = [] := by
    rw [hinner, hbody0]
    rfl
  have hswwh : ((gzipResponseWriter.init statusWriter.fresh).run as).inner.wroteHeader = false := by
    rw [hinner, hswwh0]
    rfl
  refine ⟨?_, ?_, ?_, ?_, ?_⟩ <;>
    simp [gzipMiddleware, gzipMiddlewareE, hae, hb, statusWriter.WriteHeader, statusWriter.WriteR,
      RawWriter.WriteR, RawWriter.Write, RawWriter.WriteHeader, hswwh, hst, hbody, sentGet, sentHas]
  · exact hGet_del_set _ _ _ _ (by decide)
  · exact hHas_del_self _ _

/-! ### Absence of a header key is preserved when the handler never sets it -/

theorem rw_WriteHeader_keepKey (w : RawWriter) (c : Nat) (k : String)
    (h1 : hHas w.header k = false) (h2 : sentHas w k = false) :
    hHas (w.WriteHeader c).header k = false ∧ sentHas (w.WriteHeader c) k = false := by
  cases hs : w.status with
  | some s => simp [RawWriter.WriteHeader, hs, h1, h2]
  | none => simp [RawWriter.WriteHeader, hs, sentHas, h1]

theorem rw_Write_keepKey (w : RawWriter) (b : Bytes) (k : String)
    (h1 : hHas w.header k = false) (h2 : sentHas w k = false) :
    hHas (w.Write b).header k = false ∧ sentHas (w.Write b) k = false := by
  obtain ⟨g1, g2⟩ := rw_WriteHeader_keepKey w 200 k h1 h2
  constructor
  · simpa [RawWriter.Write] using g1
  · simpa [RawWriter.Write, sentHas] using g2

theorem sw_step_keepKey (s : statusWriter) (a : ReqAction) (k : String)
    (hset : (match a with | .setHeader k2 _ => k2 == k | _ => false) = false)
    (h1 : hHas s.inner.header k = false) (h2 : sentHas s.inner k = false) :
    hHas ((s.step a).inner).header k = false ∧ sentHas ((s.step a).inner) k = false := by
  cases a with
  | setHeader k2 v =>
    simp at hset
    constructor
    · simpa [statusWriter.step] using hHas_set _ _ _ v (by simpa using hset) h1
    · simpa [statusWriter.step] using h2
  | delHeader k2 =>
    constructor
    · simpa [statusWriter.step] using hHas_del _ _ k2 h1
    · simpa [statusWriter.step] using h2
  | writeHeader c =>
    have := rw_WriteHeader_keepKey s.inner c k h1 h2
    simpa [statusWriter.step, sw_WriteHeader_inner] using this
  | write b =>
    have := rw_Write_keepKey s.inner b k h1 h2
    simpa [statusWriter.step, sw_WriteR_fst] using this

theorem sw_run_keepKey (as : List ReqAction) (s : statusWriter) (k : String)
    (hset : setsKey as k = false)
    (h1 : hHas s.inner.header k = false) (h2 : sentHas s.inner k = false) :
    hHas ((s.run as).inner).header k = false ∧ sentHas ((s.run as).inner) k = false := by
  induction as generalizing s with
  | nil => exact ⟨by simpa [sw_run_nil], by simpa [sw_run_nil]⟩
  | cons a as ih =>
    rw [setsKey, List.any_cons, Bool.or_eq_false_iff] at hset
    have hstep := sw_step_keepKey s a k hset.1 h1 h2
    rw [sw_run_cons]
    exact ih _ (by rw [setsKey]; exact hset.2) hstep.1 hstep.2

theorem gz_step_keepKey (g : gzipResponseWriter) (a : ReqAction) (k : String)
    (hset : (match a with | .setHeader k2 _ => k2 == k | _ => false) = false)
    (h1 : hHas g.inner.inner.header k = false) (h2 : sentHas g.inner.inner k = false) :
    hHas ((g.step a).inner.inner.header) k = false ∧ sentHas ((g.step a).inner.inner) k = false := by
  cases a with
  | setHeader k2 v =>
    have := sw_step_keepKey g.inner (.setHeader k2 v) k hset h1 h2
    simpa [gzipResponseWriter.step] using this
  | delHeader k2 =>
    have := sw_step_keepKey g.inner (.delHeader k2) k hset h1 h2
    simpa [gzipResponseWriter.step] using this
  | writeHeader c =>
    by_cases hw : g.wroteHeader = true
    · rw [gzipResponseWriter.step, gz_WriteHeader_committed g c hw]
      exact ⟨h1, h2⟩
    · have hw2 : g.wroteHeader = false := by simpa using hw
      by_cases hsc : shouldCompress (hGet g.inner.inner.header "Content-Type") = true
      · rw [gzipResponseWriter.step, gz_WriteHeader_buf g c hw2 hsc]
        exact ⟨h1, h2⟩
      · rw [gzipResponseWriter.step, gz_WriteHeader_nonbuf g c hw2 (by simpa using hsc)]
        have := rw_WriteHeader_keepKey g.inner.inner c k h1 h2
        simpa [sw_WriteHeader_inner] using this
  | write b =>
    have hcase : ∀ g2 : gzipResponseWriter, g2.wroteHeader = true →
        hHas g2.inner.inner.header k = false → sentHas g2.inner.inner k = false →
        hHas (((g2.Write b).1).inner.inner.header) k = false ∧ sentHas (((g2.Write b).1).inner.inner) k = false := by
      intro g2 hw2 j1 j2
      by_cases hp : g2.passthrough = true
      · rw [gz_Write_pt g2 b hw2 hp]
        have := rw_Write_keepKey g2.inner.inner b k j1 j2
        simpa using this
      · rw [gz_Write_buf g2 b hw2 (by simpa using hp)]
        exact ⟨j1, j2⟩
    by_cases hw : g.wroteHeader = true
    · have := hcase g hw h1 h2
      simpa [gzipResponseWriter.step] using this
    · have hw2 : g.wroteHeader = false := by simpa using hw
      rw [gzipResponseWriter.step, gz_Write_uncommitted g b hw2]
      have hwhk : hHas ((g.WriteHeader 200).inner.inner.header) k = false ∧ sentHas ((g.WriteHeader 200).inner.inner) k = false := by
        by_cases hsc : shouldCompress (hGet g.inner.inner.header "Content-Type") = true
        · rw [gz_WriteHeader_buf g 200 hw2 hsc]
          exact ⟨h1, h2⟩
        · rw [gz_WriteHeader_nonbuf g 200 hw2 (by simpa using hsc)]
          have := rw_WriteHeader_keepKey g.inner.inner 200 k h1 h2
          simpa [sw_WriteHeader_inner] using this
      exact hcase _ (gz_WriteHeader_wh g 200) hwhk.1 hwhk.2

theorem gz_run_keepKey (as : List ReqAction) (g : gzipResponseWriter) (k : String)
    (hset : setsKey as k = false)
    (h1 : hHas g.inner.inner.header k = false) (h2 : sentHas g.inner.inner k = false) :
    hHas ((g.run as).inner.inner.header) k = false ∧ sentHas ((g.run as).inner.inner) k = false := by
  induction as generalizing g with
  | nil => exact ⟨by simpa [gz_run_nil], by simpa [gz_run_nil]⟩
  | cons a as ih =>
    rw [setsKey, List.any_cons, Bool.or_eq_false_iff] at hset
    have hstep := gz_step_keepKey g a k hset.1 h1 h2
    rw [gz_run_cons]
    exact ih _ (by rw [setsKey]; exact hset.2) hstep.1 hstep.2

theorem rw_WH200_Write (w : RawWriter) (b : Bytes) :
    (w.WriteHeader 200).Write b = w.Write b := by
  rw [RawWriter.Write, RawWriter.Write,
    rw_WriteHeader_of_some (w.WriteHeader 200) 200 (rw_WriteHeader_status_isSome w 200)]

/-! ### Concrete requests used by witnesses and counterexamples -/

/-- A handler that sets a compressible type, commits `404` explicitly and
writes no body byte. -/
def zeroBodyTrace : List ReqAction :=
  [.setHeader "Content-Type" "text/plain", .writeHeader 404]

/-- A handler serving a small compressible body. -/
def htmlTrace : List ReqAction :=
  [.setHeader "Content-Type" "text/html", .write [1, 2, 3]]

/-! ### The claims -/

/-- C3: for every request whose `Accept-Encoding` does not contain the
substring `gzip`, the gzip middleware invokes the inner handler with the
original unwrapped response writer; the response carries no
`Content-Encoding: gzip` (provided the handler does not set that header
itself) and the body bytes equal exactly what the base handler wrote. -/
theorem spec_c3_negotiation (comp : Bytes → Bytes) (ae : String) (as : List ReqAction)
    (hae : goContains ae "gzip" = false) :
    gzipMiddleware comp as ae statusWriter.fresh = statusWriter.fresh.run as ∧
    (gzipMiddleware comp as ae statusWriter.fresh).inner.body = writtenBytes as ∧
    (setsKey as "Content-Encoding" = false →
      sentGet (gzipMiddleware comp as ae statusWriter.fresh).inner "Content-Encoding" = "" ∧
      hGet (gzipMiddleware comp as ae statusWriter.fresh).inner.header "Content-Encoding" = "") := by
  have h0 : gzipMiddleware comp as ae statusWriter.fresh = statusWriter.fresh.run as := by
    simp [gzipMiddleware, gzipMiddlewareE, hae]
  refine ⟨h0, ?_, ?_⟩
  · rw [h0, sw_run_body]
    rfl
  · intro hset
    have hkeep := sw_run_keepKey as statusWriter.fresh "Content-Encoding" hset rfl rfl
    exact ⟨by rw [h0]; exact sentGet_of_not_has _ _ hkeep.2,
           by rw [h0]; exact hGet_of_not_has _ _ hkeep.1⟩

theorem spec_c3_witness :
    goContains "identity" "gzip" = false ∧
    (gzipMiddleware tagComp htmlTrace "identity" statusWriter.fresh = statusWriter.fresh.run htmlTrace ∧
     (gzipMiddleware tagComp htmlTrace "identity" statusWriter.fresh).inner.body = writtenBytes htmlTrace ∧
     (setsKey htmlTrace "Content-Encoding" = false →
       sentGet (gzipMiddleware tagComp htmlTrace "identity" statusWriter.fresh).inner "Content-Encoding" = "" ∧
       hGet (gzipMiddleware tagComp htmlTrace "identity" statusWriter.fresh).inner.header "Content-Encoding" = "")) :=
  ⟨by decide, spec_c3_negotiation tagComp "identity" htmlTrace (by decide)⟩

/-- C5: only the first status-setting attempt affects the response that
is ultimately sent: inserting any later explicit `WriteHeader` after a
committing action changes nothing in the final raw response, in the
compression branch and the pass-through / non-gzip branch alike. -/
theorem spec_c5_single_commit (comp : Bytes → Bytes) (m p ae : String)
    (pre post : List ReqAction) (c : Nat) (h : hasCommit pre = true) :
    (loggingMiddleware comp m p ae (pre ++ ReqAction.writeHeader c :: post)).1 =
    (loggingMiddleware comp m p ae (pre ++ post)).1 := by
  by_cases hae : goContains ae "gzip" = true
  · have hg : (gzipResponseWriter.init statusWriter.fresh).run (pre ++ ReqAction.writeHeader c :: post) =
        (gzipResponseWriter.init statusWriter.fresh).run (pre ++ post) := by
      rw [gz_run_append, gz_run_append, gz_run_cons]
      have hwc : ((gzipResponseWriter.init statusWriter.fresh).run pre).wroteHeader = true :=
        gz_run_hasCommit pre _ h
      congr 1
      simpa [gzipResponseWriter.step] using gz_WriteHeader_committed _ c hwc
    have he : gzipMiddlewareE comp (pre ++ ReqAction.writeHeader c :: post) ae statusWriter.fresh =
        gzipMiddlewareE comp (pre ++ post) ae statusWriter.fresh := by
      rw [gzipMiddlewareE, gzipMiddlewareE, if_neg (by simp [hae]), if_neg (by simp [hae]), hg]
    simp [loggingMiddleware, gzipMiddleware, he]
  · have hae2 : goContains ae "gzip" = false := by simpa using hae
    have e : ∀ bs : List ReqAction,
        (loggingMiddleware comp m p ae bs).1 = (statusWriter.fresh.run bs).inner := by
      intro bs
      simp [loggingMiddleware, gzipMiddleware, gzipMiddlewareE, hae2]
    rw [e, e, sw_run_append, sw_run_append, sw_run_cons]
    have hcommit : (((statusWriter.fresh.run pre).inner).status).isSome = true :=
      sw_run_hasCommit pre _ h
    apply sw_run_inner_congr
    simp [statusWriter.step, sw_WriteHeader_inner, rw_WriteHeader_of_some _ _ hcommit]

theorem spec_c5_witness :
    hasCommit [ReqAction.write [7]] = true ∧
    (loggingMiddleware tagComp "GET" "/" "gzip" ([ReqAction.write [7]] ++ ReqAction.writeHeader 500 :: [])).1 =
      (loggingMiddleware tagComp "GET" "/" "gzip" ([ReqAction.write [7]] ++ [])).1 :=
  ⟨by decide, spec_c5_single_commit tagComp "GET" "/" "gzip" [ReqAction.write [7]] [] 500 (by decide)⟩

/-- C8: in buffering mode (committed, not pass-through), a body write
appends its bytes to the in-memory buffer, leaves the wrapped writer
completely untouched, and reports success with the full byte count. -/
theorem spec_c8_buffering_write (g : gzipResponseWriter) (b : Bytes)
    (h1 : g.wroteHeader = true) (h2 : g.passthrough = false) :
    g.Write b = ({ g with body := goAppend g.body b }, b.length, none) ∧
    ((g.Write b).1).inner = g.inner := by
  refine ⟨gz_Write_buf g b h1 h2, ?_⟩
  rw [gz_Write_buf g b h1 h2]

/-- A buffering-mode state reached after a committed compressible
response. -/
def bufState : gzipResponseWriter :=
  { inner := statusWriter.fresh, body := some [1], code := 200, wroteHeader := true, passthrough := false }

theorem spec_c8_witness :
    bufState.wroteHeader = true ∧ bufState.passthrough = false ∧
    (bufState.Write [5, 6] = ({ bufState with body := goAppend bufState.body [5, 6] }, 2, none) ∧
     ((bufState.Write [5, 6]).1).inner = bufState.inner) :=
  ⟨rfl, rfl, spec_c8_buffering_write bufState [5, 6] rfl rfl⟩

/-- C9: whenever the flush compresses a buffered body, the pool/encoder
event trace is exactly one acquisition, a reset binding it to the real
writer, a single write of the entire buffer, a close, and an
unconditional return to the pool; when nothing was buffered no pool
interaction happens at all. -/
theorem spec_c9_pool_lifecycle (comp : Bytes → Bytes) (ae : String) (as : List ReqAction)
    (hae : goContains ae "gzip" = true) :
    (∀ b, ((gzipResponseWriter.init statusWriter.fresh).run as).body = some b →
      (gzipMiddlewareE comp as ae statusWriter.fresh).2 =
        [PoolEvent.get, PoolEvent.reset, PoolEvent.write b, PoolEvent.close, PoolEvent.put]) ∧
    (((gzipResponseWriter.init statusWriter.fresh).run as).body = none →
      (gzipMiddlewareE comp as ae statusWriter.fresh).2 = []) := by
  constructor
  · intro b hb
    simp [gzipMiddlewareE, hae, hb]
  · intro hb
    simp [gzipMiddlewareE, hae, hb]

theorem spec_c9_witness :
    goContains "gzip" "gzip" = true ∧
    ((∀ b, ((gzipResponseWriter.init statusWriter.fresh).run htmlTrace).body = some b →
      (gzipMiddlewareE tagComp htmlTrace "gzip" statusWriter.fresh).2 =
        [PoolEvent.get, PoolEvent.reset, PoolEvent.write b, PoolEvent.close, PoolEvent.put]) ∧
     (((gzipResponseWriter.init statusWriter.fresh).run htmlTrace).body = none →
      (gzipMiddlewareE tagComp htmlTrace "gzip" statusWriter.fresh).2 = [])) :=
  ⟨by decide, spec_c9_pool_lifecycle tagComp "gzip" htmlTrace (by decide)⟩

/-- C10: once the gzip decorator has committed, its mode is fixed: the
pass-through flag, the recorded code and the routing of every later body
write no longer depend on later header changes — buffering mode appends
to the buffer and never touches the underlying body, pass-through mode
forwards every byte and never buffers. -/
theorem spec_c10_mode_fixed (g : gzipResponseWriter) (as : List ReqAction)
    (h : g.wroteHeader = true) :
    ((g.run as).wroteHeader = true ∧ (g.run as).passthrough = g.passthrough ∧
      (g.run as).code = g.code) ∧
    (g.passthrough = false →
      (g.run as).body = goAppend g.body (writtenBytes as) ∧
      (g.run as).inner.inner.body = g.inner.inner.body) ∧
    (g.passthrough = true →
      (g.run as).inner.inner.body = g.inner.inner.body ++ writtenBytes as ∧
      (g.run as).body = g.body) := by
  refine ⟨?_, ?_, ?_⟩
  · by_cases hp : g.passthrough = true
    · rw [gz_run_pt as g h hp]
      exact ⟨h, rfl, rfl⟩
    · rw [gz_run_buf as g h (by simpa using hp)]
      exact ⟨h, rfl, rfl⟩
  · intro hp
    rw [gz_run_buf as g h hp]
    constructor
    · rfl
    · simp [sw_run_body, writtenBytes_hdrFilter]
  · intro hp
    rw [gz_run_pt as g h hp]
    constructor
    · simp [sw_run_body, writtenBytes_dropWH]
    · rfl

theorem spec_c10_witness :
    bufState.wroteHeader = true ∧
    (((bufState.run [ReqAction.setHeader "Content-Type" "image/png", ReqAction.write [9]]).wroteHeader = true ∧
      (bufState.run [ReqAction.setHeader "Content-Type" "image/png", ReqAction.write [9]]).passthrough = bufState.passthrough ∧
      (bufState.run [ReqAction.setHeader "Content-Type" "image/png", ReqAction.write [9]]).code = bufState.code) ∧
     (bufState.passthrough = false →
       (bufState.run [ReqAction.setHeader "Content-Type" "image/png", ReqAction.write [9]]).body = goAppend bufState.body (writtenBytes [ReqAction.setHeader "Content-Type" "image/png", ReqAction.write [9]]) ∧
       (bufState.run [ReqAction.setHeader "Content-Type" "image/png", ReqAction.write [9]]).inner.inner.body = bufState.inner.inner.body) ∧
     (bufState.passthrough = true →
       (bufState.run [ReqAction.setHeader "Content-Type" "image/png", ReqAction.write [9]]).inner.inner.body = bufState.inner.inner.body ++ writtenBytes [ReqAction.setHeader "Content-Type" "image/png", ReqAction.write [9]] ∧
       (bufState.run [ReqAction.setHeader "Content-Type" "image/png", ReqAction.write [9]]).body = bufState.body)) :=
  ⟨rfl, spec_c10_mode_fixed bufState [ReqAction.setHeader "Content-Type" "image/png", ReqAction.write [9]] rfl⟩

/-- C1: whenever the middleware compressed a response (the handler's body
was buffered), decompressing the emitted body yields byte-for-byte the
bytes the base handler wrote — which are exactly the bytes the handler
would have sent uncompressed without gzip in `Accept-Encoding`.  The
codec pair abstracts the `compress/gzip` encoder, assumed lossless. -/
theorem spec_c1_roundtrip (comp decomp : Bytes → Bytes) (ae : String)
    (as : List ReqAction) (b : Bytes)
    (hcodec : ∀ x, decomp (comp x) = x)
    (hae : goContains ae "gzip" = true)
    (hb : ((gzipResponseWriter.init statusWriter.fresh).run as).body = some b) :
    decomp ((gzipMiddleware comp as ae statusWriter.fresh).inner.body) = writtenBytes as ∧
    (statusWriter.fresh.run as).inner.body = writtenBytes as := by
  have hfc := (flush_char comp as ae b hae hb).2.2.2.1
  have hbw := buffered_eq_written as b hb
  constructor
  · rw [hfc, hcodec b, hbw]
  · rw [sw_run_body]
    rfl

theorem spec_c1_witness :
    (∀ x, tagDecomp (tagComp x) = x) ∧
    goContains "gzip" "gzip" = true ∧
    ((gzipResponseWriter.init statusWriter.fresh).run htmlTrace).body = some [1, 2, 3] ∧
    (tagDecomp ((gzipMiddleware tagComp htmlTrace "gzip" statusWriter.fresh).inner.body) = writtenBytes htmlTrace ∧
     (statusWriter.fresh.run htmlTrace).inner.body = writtenBytes htmlTrace) :=
  ⟨tag_roundtrip, by decide, by decide,
   spec_c1_roundtrip tagComp tagDecomp "gzip" htmlTrace [1, 2, 3] tag_roundtrip (by decide) (by decide)⟩

/-- C4 counterexample: with gzip accepted, a handler that commits status
`404` under the compressible type `text/plain` but writes zero body
bytes.  The claim says the recorded status must then be sent with the
gzip headers; the code's flush step does nothing (the raw status stays
uncommitted and no `Content-Encoding` is sent), because its gate is
`grw.body != nil`, not "pass-through or never committed". -/
theorem spec_c4_flush_cex :
    ((gzipResponseWriter.init statusWriter.fresh).run zeroBodyTrace).wroteHeader = true ∧
    ((gzipResponseWriter.init statusWriter.fresh).run zeroBodyTrace).code = 404 ∧
    ((gzipResponseWriter.init statusWriter.fresh).run zeroBodyTrace).passthrough = false ∧
    shouldCompress (hGet ((gzipResponseWriter.init statusWriter.fresh).run zeroBodyTrace).inner.inner.header "Content-Type") = true ∧
    (gzipMiddleware tagComp zeroBodyTrace "gzip" statusWriter.fresh).inner.status = none ∧
    sentGet (gzipMiddleware tagComp zeroBodyTrace "gzip" statusWriter.fresh).inner "Content-Encoding" = "" := by
  decide

/-- C4 amended: the flush step does nothing exactly when the buffer is
empty — pass-through mode, or zero body bytes written even if a status
was committed under a compressible Content-Type; whenever at least one
byte was buffered, the recorded status is sent together with the gzip
headers. -/
theorem spec_c4_flush_amended (comp : Bytes → Bytes) (ae : String) (as : List ReqAction)
    (hae : goContains ae "gzip" = true) :
    (((gzipResponseWriter.init statusWriter.fresh).run as).body = none →
      gzipMiddleware comp as ae statusWriter.fresh = ((gzipResponseWriter.init statusWriter.fresh).run as).inner) ∧
    (∀ b, ((gzipResponseWriter.init statusWriter.fresh).run as).body = some b →
      (gzipMiddleware comp as ae statusWriter.fresh).inner.status = some ((gzipResponseWriter.init statusWriter.fresh).run as).code ∧
      sentGet (gzipMiddleware comp as ae statusWriter.fresh).inner "Content-Encoding" = "gzip" ∧
      sentHas (gzipMiddleware comp as ae statusWriter.fresh).inner "Content-Length" = false) := by
  constructor
  · intro hb
    simp [gzipMiddleware, gzipMiddlewareE, hae, hb]
  · intro b hb
    obtain ⟨x1, x2, x3, _, _⟩ := flush_char comp as ae b hae hb
    exact ⟨x1, x2, x3⟩

theorem spec_c4_witness :
    goContains "gzip" "gzip" = true ∧
    ((((gzipResponseWriter.init statusWriter.fresh).run htmlTrace).body = none →
      gzipMiddleware tagComp htmlTrace "gzip" statusWriter.fresh = ((gzipResponseWriter.init statusWriter.fresh).run htmlTrace).inner) ∧
     (∀ b, ((gzipResponseWriter.init statusWriter.fresh).run htmlTrace).body = some b →
      (gzipMiddleware tagComp htmlTrace "gzip" statusWriter.fresh).inner.status = some ((gzipResponseWriter.init statusWriter.fresh).run htmlTrace).code ∧
      sentGet (gzipMiddleware tagComp htmlTrace "gzip" statusWriter.fresh).inner "Content-Encoding" = "gzip" ∧
      sentHas (gzipMiddleware tagComp htmlTrace "gzip" statusWriter.fresh).inner "Content-Length" = false)) :=
  ⟨by decide, spec_c4_flush_amended tagComp "gzip" htmlTrace (by decide)⟩

/-- C6: provided the handler itself never sets `Content-Encoding`, the
sent response carries `Content-Encoding: gzip` exactly when the
middleware compressed the body (gzip accepted and a body buffered), and
every compressed response is sent without a `Content-Length` header. -/
theorem spec_c6_header_consistency (comp : Bytes → Bytes) (ae : String) (as : List ReqAction)
    (hset : setsKey as "Content-Encoding" = false) :
    (sentGet (gzipMiddleware comp as ae statusWriter.fresh).inner "Content-Encoding" = "gzip" ↔
      (goContains ae "gzip" = true ∧ ((gzipResponseWriter.init statusWriter.fresh).run as).body ≠ none)) ∧
    (∀ b, goContains ae "gzip" = true →
      ((gzipResponseWriter.init statusWriter.fresh).run as).body = some b →
      sentHas (gzipMiddleware comp as ae statusWriter.fresh).inner "Content-Length" = false) := by
  constructor
  · constructor
    · intro hce
      by_cases hae : goContains ae "gzip" = true
      · refine ⟨hae, ?_⟩
        intro hbn
        have hout : gzipMiddleware comp as ae statusWriter.fresh =
            ((gzipResponseWriter.init statusWriter.fresh).run as).inner := by
          simp [gzipMiddleware, gzipMiddlewareE, hae, hbn]
        have hkeep := gz_run_keepKey as (gzipResponseWriter.init statusWriter.fresh)
          "Content-Encoding" hset rfl rfl
        rw [hout, sentGet_of_not_has _ _ hkeep.2] at hce
        exact absurd hce (by decide)
      · have hae2 : goContains ae "gzip" = false := by simpa using hae
        have hout : gzipMiddleware comp as ae statusWriter.fresh = statusWriter.fresh.run as := by
          simp [gzipMiddleware, gzipMiddlewareE, hae2]
        have hkeep := sw_run_keepKey as statusWriter.fresh "Content-Encoding" hset rfl rfl
        rw [hout, sentGet_of_not_has _ _ hkeep.2] at hce
        exact absurd hce (by decide)
    · rintro ⟨hae, hbn⟩
      cases hx : ((gzipResponseWriter.init statusWriter.fresh).run as).body with
      | none => exact absurd hx hbn
      | some b => exact (flush_char comp as ae b hae hx).2.1
  · intro b hae hb
    exact (flush_char comp as ae b hae hb).2.2.1

theorem spec_c6_witness :
    setsKey htmlTrace "Content-Encoding" = false ∧
    ((sentGet (gzipMiddleware tagComp htmlTrace "gzip" statusWriter.fresh).inner "Content-Encoding" = "gzip" ↔
      (goContains "gzip" "gzip" = true ∧ ((gzipResponseWriter.init statusWriter.fresh).run htmlTrace).body ≠ none)) ∧
     (∀ b, goContains "gzip" "gzip" = true →
      ((gzipResponseWriter.init statusWriter.fresh).run htmlTrace).body = some b →
      sentHas (gzipMiddleware tagComp htmlTrace "gzip" statusWriter.fresh).inner "Content-Length" = false)) :=
  ⟨by decide, spec_c6_header_consistency tagComp "gzip" htmlTrace (by decide)⟩

/-- C7 counterexample: with gzip accepted, a handler that explicitly sets
status `404` (compressible `text/plain`) but writes no body.  The claim
says the logged status must be the first explicitly set code, `404`; the
program logs `200`, because the compression layer buffered nothing and
never forwarded the recorded status to the logging writer. -/
theorem spec_c7_log_cex :
    firstWH zeroBodyTrace = some 404 ∧
    (loggingMiddleware tagComp "GET" "/missing" "gzip" zeroBodyTrace).2.status = 200 ∧
    (200 : Nat) ≠ 404 := by
  decide

/-- The status the logging layer ends up recording, by branch: the first
explicit set without gzip; the code at the compression layer's commit in
pass-through mode or when a nonempty body is flushed; `200` otherwise. -/
def expectedLogStatus (ae : String) (as : List ReqAction) : Nat :=
  if goContains ae "gzip" = true then
    (if ((gzipResponseWriter.init statusWriter.fresh).run as).passthrough = true then
      ((gzipResponseWriter.init statusWriter.fresh).run as).code
    else if ((gzipResponseWriter.init statusWriter.fresh).run as).body = none then 200
    else ((gzipResponseWriter.init statusWriter.fresh).run as).code)
  else (firstWH as).getD 200

/-- C7 amended: exactly one record is emitted per request with the
request's method and path, and the logged status is the status that
actually reaches the logging writer: without gzip it is the first
explicitly set code (default `200`); with gzip it is the code recorded at
the compression layer's commit — forwarded immediately in pass-through
mode, forwarded at flush when a nonempty body was buffered — and `200`
when the compression layer buffered nothing and so forwarded no status. -/
theorem spec_c7_log_amended (comp : Bytes → Bytes) (m p ae : String) (as : List ReqAction) :
    (loggingMiddleware comp m p ae as).2 = { method := m, path := p, status := expectedLogStatus ae as } := by
  have hred : (loggingMiddleware comp m p ae as).2 =
      { method := m, path := p, status := (gzipMiddleware comp as ae statusWriter.fresh).status } := rfl
  rw [hred]
  have hstat : (gzipMiddleware comp as ae statusWriter.fresh).status = expectedLogStatus ae as := by
    rw [expectedLogStatus]
    by_cases hae : goContains ae "gzip" = true
    · rw [if_pos hae]
      by_cases hpt : ((gzipResponseWriter.init statusWriter.fresh).run as).passthrough = true
      · rw [if_pos hpt]
        have hginv := ginv_run as _ (ginv_init statusWriter.fresh rfl)
        obtain ⟨hbn, hstcode, _⟩ := hginv.2 hpt
        have hout : gzipMiddleware comp as ae statusWriter.fresh =
            ((gzipResponseWriter.init statusWriter.fresh).run as).inner := by
          simp [gzipMiddleware, gzipMiddlewareE, hae, hbn]
        rw [hout, hstcode]
      · rw [if_neg hpt]
        by_cases hbn : ((gzipResponseWriter.init statusWriter.fresh).run as).body = none
        · rw [if_pos hbn]
          have hout : gzipMiddleware comp as ae statusWriter.fresh =
              ((gzipResponseWriter.init statusWriter.fresh).run as).inner := by
            simp [gzipMiddleware, gzipMiddlewareE, hae, hbn]
          have hnpt := (gz_run_npt as _ (by simpa using hpt)).1
          have hsw := (sw_run_hdrOnly (hdrFilter as) statusWriter.fresh (isHdrOnly_hdrFilter as)).2.2.2.1
          have hid : (gzipResponseWriter.init statusWriter.fresh).inner = statusWriter.fresh := rfl
          rw [hout, hnpt, hid, hsw]
          rfl
        · rw [if_neg hbn]
          cases hx : ((gzipResponseWriter.init statusWriter.fresh).run as).body with
          | none => exact absurd hx hbn
          | some b => exact (flush_char comp as ae b hae hx).2.2.2.2
    · rw [if_neg hae]
      have hae2 : goContains ae "gzip" = false := by simpa using hae
      have hout : gzipMiddleware comp as ae statusWriter.fresh = statusWriter.fresh.run as := by
        simp [gzipMiddleware, gzipMiddlewareE, hae2]
      rw [hout, sw_run_status as statusWriter.fresh rfl]
      rfl
  rw [hstat]

/-- C2: with gzip accepted, the response whose `Content-Type` at the
moment of status commit is compressible is buffered (never pass-through,
all body bytes accumulated) and its body is emitted compressed by the
flush; for every other `Content-Type` value the decorator enters
pass-through mode and the raw response equals exactly the response the
handler would produce on the unwrapped writer. -/
theorem spec_c2_classification (comp : Bytes → Bytes) (ae : String)
    (pre post : List ReqAction) (a : ReqAction)
    (hpre : isHdrOnly pre = true) (ha : isCommitAct a = true)
    (hae : goContains ae "gzip" = true) :
    (shouldCompress (hGet (statusWriter.fresh.run pre).inner.header "Content-Type") = true →
      ((gzipResponseWriter.init statusWriter.fresh).run (pre ++ a :: post)).passthrough = false ∧
      ((gzipResponseWriter.init statusWriter.fresh).run (pre ++ a :: post)).wroteHeader = true ∧
      ((gzipResponseWriter.init statusWriter.fresh).run (pre ++ a :: post)).body =
        goAppend none (writtenBytes (pre ++ a :: post)) ∧
      (∀ b, ((gzipResponseWriter.init statusWriter.fresh).run (pre ++ a :: post)).body = some b →
        (gzipMiddleware comp (pre ++ a :: post) ae statusWriter.fresh).inner.body = comp b)) ∧
    (shouldCompress (hGet (statusWriter.fresh.run pre).inner.header "Content-Type") = false →
      ((gzipResponseWriter.init statusWriter.fresh).run (pre ++ a :: post)).passthrough = true ∧
      (gzipMiddleware comp (pre ++ a :: post) ae statusWriter.fresh).inner =
        (statusWriter.fresh.run (pre ++ a :: post)).inner) := by
  have hsplit : (gzipResponseWriter.init statusWriter.fresh).run (pre ++ a :: post) =
      ((gzipResponseWriter.init (statusWriter.fresh.run pre)).step a).run post := by
    rw [gz_run_append, gz_init_run_hdrOnly pre _ hpre, gz_run_cons]
  have hswsplit : statusWriter.fresh.run (pre ++ a :: post) =
      ((statusWriter.fresh.run pre).step a).run post := by
    rw [sw_run_append, sw_run_cons]
  have hwb : writtenBytes (pre ++ a :: post) = writtenBytes (a :: post) := by
    rw [writtenBytes_append, writtenBytes_of_hdrOnly pre hpre]
    rfl
  constructor
  · intro hsc
    have hflush : ∀ b, ((gzipResponseWriter.init statusWriter.fresh).run (pre ++ a :: post)).body = some b →
        (gzipMiddleware comp (pre ++ a :: post) ae statusWriter.fresh).inner.body = comp b := by
      intro b hb
      exact (flush_char comp (pre ++ a :: post) ae b hae hb).2.2.2.1
    cases a with
    | setHeader k v => exact absurd ha (by simp [isCommitAct])
    | delHeader k => exact absurd ha (by simp [isCommitAct])
    | writeHeader c =>
      have hstep : (gzipResponseWriter.init (statusWriter.fresh.run pre)).step (.writeHeader c) =
          { gzipResponseWriter.init (statusWriter.fresh.run pre) with wroteHeader := true, code := c } :=
        gz_WriteHeader_buf _ c rfl hsc
      refine ⟨?_, ?_, ?_, hflush⟩
      · rw [hsplit, hstep, gz_run_buf post _ rfl rfl]
        rfl
      · rw [hsplit, hstep, gz_run_buf post _ rfl rfl]
      · rw [hsplit, hstep, gz_run_buf post _ rfl rfl, hwb]
        simp [writtenBytes]
        rfl
    | write b0 =>
      have hstep : (gzipResponseWriter.init (statusWriter.fresh.run pre)).step (.write b0) =
          { gzipResponseWriter.init (statusWriter.fresh.run pre) with body := goAppend none b0, code := 200, wroteHeader := true } := by
        show ((gzipResponseWriter.init (statusWriter.fresh.run pre)).Write b0).1 = _
        rw [gz_Write_uncommitted _ b0 rfl, gz_WriteHeader_buf _ 200 rfl hsc,
          gz_Write_buf _ b0 rfl rfl]
        rfl
      refine ⟨?_, ?_, ?_, hflush⟩
      · rw [hsplit, hstep, gz_run_buf post _ rfl rfl]
        rfl
      · rw [hsplit, hstep, gz_run_buf post _ rfl rfl]
      · rw [hsplit, hstep, gz_run_buf post _ rfl rfl, hwb]
        simp [writtenBytes, goAppend_assoc]
  · intro hsc
    cases a with
    | setHeader k v => exact absurd ha (by simp [isCommitAct])
    | delHeader k => exact absurd ha (by simp [isCommitAct])
    | writeHeader c =>
      have hstep : (gzipResponseWriter.init (statusWriter.fresh.run pre)).step (.writeHeader c) =
          { gzipResponseWriter.init (statusWriter.fresh.run pre) with inner := (statusWriter.fresh.run pre).WriteHeader c, wroteHeader := true, code := c, passthrough := true } :=
        gz_WriteHeader_nonbuf _ c rfl hsc
      have hrun : (gzipResponseWriter.init statusWriter.fresh).run (pre ++ ReqAction.writeHeader c :: post) =
          { gzipResponseWriter.init (statusWriter.fresh.run pre) with inner := ((statusWriter.fresh.run pre).WriteHeader c).run (dropWH post), wroteHeader := true, code := c, passthrough := true } := by
        rw [hsplit, hstep, gz_run_pt post _ rfl rfl]
      constructor
      · rw [hrun]
      · have hbody : ((gzipResponseWriter.init statusWriter.fresh).run (pre ++ ReqAction.writeHeader c :: post)).body = none := by
          rw [hrun]
          rfl
        have hout : gzipMiddleware comp (pre ++ ReqAction.writeHeader c :: post) ae statusWriter.fresh =
            ((gzipResponseWriter.init statusWriter.fresh).run (pre ++ ReqAction.writeHeader c :: post)).inner := by
          simp [gzipMiddleware, gzipMiddlewareE, hae, hbody]
        have hsome : ((((statusWriter.fresh.run pre).WriteHeader c).inner).status).isSome = true := by
          rw [sw_WriteHeader_inner]
          exact rw_WriteHeader_status_isSome _ c
        rw [hout, hrun, hswsplit]
        show (((statusWriter.fresh.run pre).WriteHeader c).run (dropWH post)).inner =
          (((statusWriter.fresh.run pre).WriteHeader c).run post).inner
        exact (sw_run_dropWH post _ hsome).symm
    | write b0 =>
      have hstep : (gzipResponseWriter.init (statusWriter.fresh.run pre)).step (.write b0) =
          { gzipResponseWriter.init (statusWriter.fresh.run pre) with inner := { (statusWriter.fresh.run pre).WriteHeader 200 with inner := (((statusWriter.fresh.run pre).WriteHeader 200).inner).Write b0 }, wroteHeader := true, code := 200, passthrough := true } := by
        show ((gzipResponseWriter.init (statusWriter.fresh.run pre)).Write b0).1 = _
        rw [gz_Write_uncommitted _ b0 rfl, gz_WriteHeader_nonbuf _ 200 rfl hsc,
          gz_Write_pt _ b0 rfl rfl]
        rfl
      have hrun : (gzipResponseWriter.init statusWriter.fresh).run (pre ++ ReqAction.write b0 :: post) =
          { gzipResponseWriter.init (statusWriter.fresh.run pre) with inner := ({ (statusWriter.fresh.run pre).WriteHeader 200 with inner := (((statusWriter.fresh.run pre).WriteHeader 200).inner).Write b0 }).run (dropWH post), wroteHeader := true, code := 200, passthrough := true } := by
        rw [hsplit, hstep, gz_run_pt post _ rfl rfl]
      constructor
      · rw [hrun]
      · have hbody : ((gzipResponseWriter.init statusWriter.fresh).run (pre ++ ReqAction.write b0 :: post)).body = none := by
          rw [hrun]
          rfl
        have hout : gzipMiddleware comp (pre ++ ReqAction.write b0 :: post) ae statusWriter.fresh =
            ((gzipResponseWriter.init statusWriter.fresh).run (pre ++ ReqAction.write b0 :: post)).inner := by
          simp [gzipMiddleware, gzipMiddlewareE, hae, hbody]
        have hsome : (({ (statusWriter.fresh.run pre).WriteHeader 200 with inner := (((statusWriter.fresh.run pre).WriteHeader 200).inner).Write b0 } : statusWriter).inner.status).isSome = true :=
          rw_Write_status_isSome _ b0
        have hAB : ({ (statusWriter.fresh.run pre).WriteHeader 200 with inner := (((statusWriter.fresh.run pre).WriteHeader 200).inner).Write b0 } : statusWriter).inner =
            ({ statusWriter.fresh.run pre with inner := (statusWriter.fresh.run pre).inner.Write b0 } : statusWriter).inner := by
          show (((statusWriter.fresh.run pre).WriteHeader 200).inner).Write b0 =
            (statusWriter.fresh.run pre).inner.Write b0
          rw [sw_WriteHeader_inner, rw_WH200_Write]
        rw [hout, hrun, hswsplit]
        show (({ (statusWriter.fresh.run pre).WriteHeader 200 with inner := (((statusWriter.fresh.run pre).WriteHeader 200).inner).Write b0 } : statusWriter).run (dropWH post)).inner =
          (({ statusWriter.fresh.run pre with inner := (statusWriter.fresh.run pre).inner.Write b0 } : statusWriter).run post).inner
        calc (({ (statusWriter.fresh.run pre).WriteHeader 200 with inner := (((statusWriter.fresh.run pre).WriteHeader 200).inner).Write b0 } : statusWriter).run (dropWH post)).inner
            = (({ (statusWriter.fresh.run pre).WriteHeader 200 with inner := (((statusWriter.fresh.run pre).WriteHeader 200).inner).Write b0 } : statusWriter).run post).inner :=
              (sw_run_dropWH post _ hsome).symm
          _ = (({ statusWriter.fresh.run pre with inner := (statusWriter.fresh.run pre).inner.Write b0 } : statusWriter).run post).inner :=
              sw_run_inner_congr post _ _ hAB

theorem spec_c2_witness :
    isHdrOnly [ReqAction.setHeader "Content-Type" "text/html"] = true ∧
    isCommitAct (ReqAction.write [1, 2, 3]) = true ∧
    goContains "gzip" "gzip" = true ∧
    ((shouldCompress (hGet (statusWriter.fresh.run [ReqAction.setHeader "Content-Type" "text/html"]).inner.header "Content-Type") = true →
      ((gzipResponseWriter.init statusWriter.fresh).run ([ReqAction.setHeader "Content-Type" "text/html"] ++ ReqAction.write [1, 2, 3] :: [])).passthrough = false ∧
      ((gzipResponseWriter.init statusWriter.fresh).run ([ReqAction.setHeader "Content-Type" "text/html"] ++ ReqAction.write [1, 2, 3] :: [])).wroteHeader = true ∧
      ((gzipResponseWriter.init statusWriter.fresh).run ([ReqAction.setHeader "Content-Type" "text/html"] ++ ReqAction.write [1, 2, 3] :: [])).body =
        goAppend none (writtenBytes ([ReqAction.setHeader "Content-Type" "text/html"] ++ ReqAction.write [1, 2, 3] :: [])) ∧
      (∀ b, ((gzipResponseWriter.init statusWriter.fresh).run ([ReqAction.setHeader "Content-Type" "text/html"] ++ ReqAction.write [1, 2, 3] :: [])).body = some b →
        (gzipMiddleware tagComp ([ReqAction.setHeader "Content-Type" "text/html"] ++ ReqAction.write [1, 2, 3] :: []) "gzip" statusWriter.fresh).inner.body = tagComp b)) ∧
     (shouldCompress (hGet (statusWriter.fresh.run [ReqAction.setHeader "Content-Type" "text/html"]).inner.header "Content-Type") = false →
      ((gzipResponseWriter.init statusWriter.fresh).run ([ReqAction.setHeader "Content-Type" "text/html"] ++ ReqAction.write [1, 2, 3] :: [])).passthrough = true ∧
      (gzipMiddleware tagComp ([ReqAction.setHeader "Content-Type" "text/html"] ++ ReqAction.write [1, 2, 3] :: []) "gzip" statusWriter.fresh).inner =
        (statusWriter.fresh.run ([ReqAction.setHeader "Content-Type" "text/html"] ++ ReqAction.write [1, 2, 3] :: [])).inner)) :=
  ⟨by decide, by decide, by decide,
   spec_c2_classification tagComp "gzip" [ReqAction.setHeader "Content-Type" "text/html"] []
     (ReqAction.write [1, 2, 3]) (by decide) (by decide) (by decide)⟩
